import Mathlib

/-!
Verification of the permission-resolution subsystem of an e-learning backend
(`src/controllers/superAdminController.js`): the resolver computing a user's
effective permission set from a role baseline plus per-user grant/revoke
overrides, the override mutator (bulk and legacy single paths), the reset
path, and the role-policy read/replace paths.

The relational tables (`permissions`, `users`, `user_permissions`,
`role_permissions`) are embedded as lists of rows; each SQL statement of the
controller is translated into the corresponding list operation.  JavaScript
truthiness of the request fields (absent vs present, empty string, zero) is
modelled explicitly.
-/

namespace SuperAdmin

/-- A row of the `permissions` table: `id` is the surrogate key, `name` the
external identifier. -/
structure Permission where
  id : Nat
  name : String
deriving DecidableEq, Repr

/-- A row of the `user_permissions` table: one override directive.
`type` is the string `"grant"` or `"revoke"` (the column is free-form in the
schema; the controller only ever writes these two values). -/
structure OverrideRow where
  userId : Nat
  permissionId : Nat
  type : String
deriving DecidableEq, Repr

/-- A row of the `role_permissions` table. -/
structure RolePermRow where
  role : String
  permissionId : Nat
deriving DecidableEq, Repr

/-- The slice of a `users` row the controller reads (`SELECT role ... WHERE id = ?`). -/
structure UserRow where
  id : Nat
  role : String
deriving DecidableEq, Repr

/-- The relational store as seen by `superAdminController.js`. -/
structure DB where
  permissions : List Permission
  users : List UserRow
  user_permissions : List OverrideRow
  role_permissions : List RolePermRow
deriving DecidableEq, Repr

/-- JavaScript truthiness of an optional string: `undefined`/`null` and the
empty string are falsy. -/
def truthyStr : Option String → Bool
  | none => false
  | some s => !(s == "")

/-- JavaScript truthiness of an optional number: `undefined`/`null` and `0`
are falsy. -/
def truthyNat : Option Nat → Bool
  | none => false
  | some n => !(n == 0)

/-- `new Set(l)` / repeated `Set.prototype.add`: append `x` unless already
present (JS sets keep first insertion). -/
def jsSetInsert (l : List String) (x : String) : List String :=
  if x ∈ l then l else l ++ [x]

/-- `Set.prototype.delete`: remove `x`. -/
def jsSetDelete (l : List String) (x : String) : List String :=
  l.filter (fun y => !(y == x))

/-- The response shapes the controller produces (uniform envelope collapsed to
the cases that matter: 200 success with a message, 404, 500). -/
inductive Resp where
  | ok (message : String)
  | notFound (message : String)
  | serverError
deriving DecidableEq, Repr

/-- The `data` object returned by `getUserPermissions`. -/
structure EffectiveView where
  userId : Nat
  role : String
  effectivePermissions : List String
  rolePermissions : List String
  grantedPermissions : List String
  revokedPermissions : List String
deriving DecidableEq, Repr

/-- `getUserPermissions` (the Permission Resolver), read-only.

Mirrors the controller line by line: fetch the user's role with default
`'User'` (`users[0]?.role || 'User'`), join `user_permissions` with
`permissions` for the override rows, join `role_permissions` with
`permissions` for the baseline, split overrides into grant/revoke name lists,
then build the effective set as `new Set(rolePermissions)`, add every grant,
delete every revoke. -/
def getUserPermissions (db : DB) (userId : Nat) : EffectiveView :=
  let userRole :=
    match db.users.find? (fun w => w.id == userId) with
    | some w => if w.role == "" then "User" else w.role
    | none => "User"
  let userPerms :=
    (db.user_permissions.filter (fun r => r.userId == userId)).flatMap
      (fun r => (db.permissions.filter (fun p => p.id == r.permissionId)).map
        (fun p => (p.name, r.type)))
  let rolePermissions :=
    (db.role_permissions.filter (fun rp => rp.role == userRole)).flatMap
      (fun rp => (db.permissions.filter (fun p => p.id == rp.permissionId)).map
        (fun p => p.name))
  let grantedPermissions :=
    (userPerms.filter (fun pr => pr.2 == "grant")).map (fun pr => pr.1)
  let revokedPermissions :=
    (userPerms.filter (fun pr => pr.2 == "revoke")).map (fun pr => pr.1)
  let effective0 := rolePermissions.foldl jsSetInsert []
  let effective1 := grantedPermissions.foldl jsSetInsert effective0
  let effective2 := revokedPermissions.foldl jsSetDelete effective1
  { userId := userId
    role := userRole
    effectivePermissions := effective2
    rolePermissions := rolePermissions
    grantedPermissions := grantedPermissions
    revokedPermissions := revokedPermissions }

/-- `INSERT INTO user_permissions (userId, permissionId, type) VALUES ...
ON DUPLICATE KEY UPDATE type = t` for one row, under the table's unique key
on `(userId, permissionId)`: update the matching row's `type` in place if the
pair is present, otherwise append a fresh row. -/
def upsertOverride (rows : List OverrideRow) (u pid : Nat) (t : String) :
    List OverrideRow :=
  if rows.any (fun r => r.userId == u && r.permissionId == pid) then
    rows.map (fun r =>
      if r.userId == u && r.permissionId == pid then { r with type := t } else r)
  else
    rows ++ [{ userId := u, permissionId := pid, type := t }]

/-- `DELETE FROM user_permissions WHERE userId = ? AND permissionId = ?`.
When the controller reaches this statement with `permissionId` still
`undefined`, the driver escapes it to SQL `NULL` and `permissionId = NULL`
matches no row, so nothing is deleted. -/
def deleteOverride (rows : List OverrideRow) (u : Nat) (pid : Option Nat) :
    List OverrideRow :=
  match pid with
  | none => rows
  | some i => rows.filter (fun r => !(r.userId == u && r.permissionId == i))

/-- The request body of `updateUserPermission`.  `none` models an absent
(`undefined`) JSON field. -/
structure UpdateReq where
  grantPermissions : Option (List String)
  revokePermissions : Option (List String)
  permissionId : Option Nat
  type : Option String
  permissionName : Option String
deriving DecidableEq, Repr

/-- The legacy single-update tail of `updateUserPermission`, after
`permissionId` has been settled: falsy `type` deletes the pair's row,
truthy `type` upserts.  An upsert with `permissionId` still undefined
(`NULL`) violates the foreign-key/NOT NULL constraint on the column and the
thrown error is caught as a 500. -/
def legacySingleWrite (db : DB) (userId : Nat) (pid : Option Nat)
    (ty : Option String) : DB × Resp :=
  if truthyStr ty then
    match pid with
    | some i =>
        ({ db with user_permissions :=
            (upsertOverride db.user_permissions userId i (ty.getD "")) },
         Resp.ok "User permission updated")
    | none => (db, Resp.serverError)
  else
    ({ db with user_permissions := deleteOverride db.user_permissions userId pid },
     Resp.ok "User permission updated")

/-- One block of the bulk branch (the grant block and the revoke block are
textually identical in the source up to the `type` literal): when the name
list is non-empty, `SELECT id, name FROM permissions WHERE name IN (?)`, and
when at least one row resolves, multi-row `INSERT ... ON DUPLICATE KEY
UPDATE type = t`. -/
def bulkWriteStep (db : DB) (userId : Nat) (names : List String) (t : String) : DB :=
  if 0 < names.length then
    let perms := db.permissions.filter (fun p => names.contains p.name)
    if 0 < perms.length then
      { db with user_permissions :=
          (perms.foldl (fun rows p => upsertOverride rows userId p.id t)
            db.user_permissions) }
    else db
  else db

/-- `updateUserPermission` (the Override Mutator).

Bulk mode is taken when `grantPermissions` or `revokePermissions` is present
(a present empty array is truthy in JS): resolve each name list through the
`permissions` catalog (`WHERE name IN (?)`) and upsert a `grant` row for every
resolved grant name, then a `revoke` row for every resolved revoke name;
unresolved names are silently absent from the SELECT result.  Otherwise the
legacy single mode runs: a truthy `permissionName` with falsy `permissionId`
is resolved through the catalog first, answering 404 `Permission not found`
when no row matches; then falsy `type` deletes and truthy `type` upserts. -/
def updateUserPermission (db : DB) (userId : Nat) (req : UpdateReq) : DB × Resp :=
  if req.grantPermissions.isSome || req.revokePermissions.isSome then
    let toGrant := req.grantPermissions.getD []
    let toRevoke := req.revokePermissions.getD []
    (bulkWriteStep (bulkWriteStep db userId toGrant "grant") userId toRevoke "revoke",
     Resp.ok "User permissions updated")
  else
    if truthyStr req.permissionName && !(truthyNat req.permissionId) then
      match db.permissions.find? (fun p => p.name == req.permissionName.getD "") with
      | some p => legacySingleWrite db userId (some p.id) req.type
      | none => (db, Resp.notFound "Permission not found")
    else
      legacySingleWrite db userId req.permissionId req.type

/-- `resetUserPermissions`: `DELETE FROM user_permissions WHERE userId = ?`,
always answering success. -/
def resetUserPermissions (db : DB) (userId : Nat) : DB × Resp :=
  ({ db with user_permissions :=
      (db.user_permissions.filter (fun r => !(r.userId == userId))) },
   Resp.ok "User permissions reset")

/-- The `data` object returned by `getRolePermissions`. -/
structure RoleView where
  roleId : String
  roleName : String
  permissions : List String
  userCount : Nat
deriving DecidableEq, Repr

/-- `getRolePermissions`: join `role_permissions` with `permissions` for the
role and return the names; `userCount` is the literal `0` of the source
(`userCount: 0 // Mock count or fetch real count`). -/
def getRolePermissions (db : DB) (roleName : String) : RoleView :=
  { roleId := roleName
    roleName := roleName
    permissions :=
      (db.role_permissions.filter (fun rp => rp.role == roleName)).flatMap
        (fun rp => (db.permissions.filter (fun p => p.id == rp.permissionId)).map
          (fun p => p.name))
    userCount := 0 }

/-- `updateRolePermissions`: delete every `role_permissions` row of the role,
then (when `permissionNames` is present and non-empty) resolve the names
through the catalog and insert one row per resolved permission. -/
def updateRolePermissions (db : DB) (roleName : String)
    (permissionNames : Option (List String)) : DB × Resp :=
  let db1 := { db with role_permissions :=
      (db.role_permissions.filter (fun rp => !(rp.role == roleName))) }
  match permissionNames with
  | some names =>
      if 0 < names.length then
        let perms := db1.permissions.filter (fun p => names.contains p.name)
        if 0 < perms.length then
          ({ db1 with role_permissions :=
              (db1.role_permissions ++
                perms.map (fun p => { role := roleName, permissionId := p.id })) },
           Resp.ok "Role permissions updated")
        else (db1, Resp.ok "Role permissions updated")
      else (db1, Resp.ok "Role permissions updated")
  | none => (db1, Resp.ok "Role permissions updated")

/-- Revoke half of the fallible bulk update (see `bulkF`); `k` is the index
of the next query to be issued. -/
def bulkRevokeF (db : DB) (userId : Nat) (toRevoke : List String)
    (failAt : Option Nat) (k : Nat) : DB × Resp :=
  if 0 < toRevoke.length then
    if failAt = some k then (db, Resp.serverError)
    else
      let perms := db.permissions.filter (fun p => toRevoke.contains p.name)
      if 0 < perms.length then
        if failAt = some (k + 1) then (db, Resp.serverError)
        else
          ({ db with user_permissions :=
              (perms.foldl (fun rows p => upsertOverride rows userId p.id "revoke")
                db.user_permissions) },
           Resp.ok "User permissions updated")
      else (db, Resp.ok "User permissions updated")
  else (db, Resp.ok "User permissions updated")

/-- The bulk branch of `updateUserPermission` with the storage boundary made
fallible.  The controller issues each `pool.query` separately with no
transaction, so every statement autocommits on its own; `failAt = some k`
makes the `k`-th issued query (0-indexed, counting only queries actually
issued) throw, which the `catch` block turns into a 500 response while the
writes already issued stay committed. -/
def bulkF (db : DB) (userId : Nat) (toGrant toRevoke : List String)
    (failAt : Option Nat) : DB × Resp :=
  if 0 < toGrant.length then
    if failAt = some 0 then (db, Resp.serverError)
    else
      let perms := db.permissions.filter (fun p => toGrant.contains p.name)
      if 0 < perms.length then
        if failAt = some 1 then (db, Resp.serverError)
        else
          bulkRevokeF
            { db with user_permissions :=
                (perms.foldl (fun rows p => upsertOverride rows userId p.id "grant")
                  db.user_permissions) }
            userId toRevoke failAt 2
      else bulkRevokeF db userId toRevoke failAt 1
  else bulkRevokeF db userId toRevoke failAt 0

/-- `updateRolePermissions` with the storage boundary made fallible, same
convention as `bulkF`: query 0 is the DELETE, query 1 the catalog SELECT,
query 2 the INSERT; each autocommits separately (no transaction in the
source). -/
def roleReplaceF (db : DB) (roleName : String)
    (permissionNames : Option (List String)) (failAt : Option Nat) : DB × Resp :=
  if failAt = some 0 then (db, Resp.serverError)
  else
    let db1 := { db with role_permissions :=
        (db.role_permissions.filter (fun rp => !(rp.role == roleName))) }
    match permissionNames with
    | some names =>
        if 0 < names.length then
          if failAt = some 1 then (db1, Resp.serverError)
          else
            let perms := db1.permissions.filter (fun p => names.contains p.name)
            if 0 < perms.length then
              if failAt = some 2 then (db1, Resp.serverError)
              else
                ({ db1 with role_permissions :=
                    (db1.role_permissions ++
                      perms.map (fun p => { role := roleName, permissionId := p.id })) },
                 Resp.ok "Role permissions updated")
            else (db1, Resp.ok "Role permissions updated")
        else (db1, Resp.ok "Role permissions updated")
    | none => (db1, Resp.ok "Role permissions updated")

/-- Does row `r` belong to the `(u, pid)` pair? -/
def pairMatches (u pid : Nat) (r : OverrideRow) : Bool :=
  r.userId == u && r.permissionId == pid

/-- Number of override rows stored for the pair `(u, pid)`. -/
def pairCount (rows : List OverrideRow) (u pid : Nat) : Nat :=
  (rows.filter (pairMatches u pid)).length

/-- The spec's uniqueness invariant: at most one override row per
`(userId, permissionId)` pair. -/
def atMostOnePerPair (rows : List OverrideRow) : Prop :=
  ∀ u pid, pairCount rows u pid ≤ 1

/-- Any interleaving of mutation calls, as a fold over `(userId, request)`
pairs. -/
def applyUpdates (db : DB) (ops : List (Nat × UpdateReq)) : DB :=
  ops.foldl (fun d op => (updateUserPermission d op.1 op.2).1) db

/-- A two-permission catalog with one instructor baseline permission and no
overrides; concrete store for witness instantiations. -/
def dbW : DB :=
  { permissions := [{ id := 1, name := "a" }, { id := 2, name := "b" }]
    users := [{ id := 7, role := "Instructor" }]
    user_permissions := []
    role_permissions := [{ role := "Instructor", permissionId := 1 }] }

/-- `dbW` with one stored override row, for exercising the delete-free
paths. -/
def dbO : DB :=
  { dbW with user_permissions := [{ userId := 7, permissionId := 2, type := "revoke" }] }

/-- The request body `{}`: every field absent. -/
def emptyReq : UpdateReq :=
  { grantPermissions := none, revokePermissions := none, permissionId := none
    type := none, permissionName := none }

/-! ### Lemmas about the JS set operations -/

theorem mem_jsSetInsert (acc : List String) (a x : String) :
    x ∈ jsSetInsert acc a ↔ x ∈ acc ∨ x = a := by
  unfold jsSetInsert
  split
  · constructor
    · exact fun h => Or.inl h
    · rintro (h | rfl)
      · exact h
      · assumption
  · simp

theorem mem_foldl_jsSetInsert (l : List String) (acc : List String) (x : String) :
    x ∈ l.foldl jsSetInsert acc ↔ x ∈ acc ∨ x ∈ l := by
  induction l generalizing acc with
  | nil => simp
  | cons a l ih =>
      simp only [List.foldl_cons, ih, mem_jsSetInsert, List.mem_cons]
      tauto

theorem mem_jsSetDelete (acc : List String) (a x : String) :
    x ∈ jsSetDelete acc a ↔ x ∈ acc ∧ ¬ x = a := by
  unfold jsSetDelete
  simp [List.mem_filter]

theorem mem_foldl_jsSetDelete (l : List String) (acc : List String) (x : String) :
    x ∈ l.foldl jsSetDelete acc ↔ x ∈ acc ∧ ¬ x ∈ l := by
  induction l generalizing acc with
  | nil => simp
  | cons a l ih =>
      simp only [List.foldl_cons, ih, mem_jsSetDelete, List.mem_cons]
      tauto

/-! ### Lemmas about the resolver's four views -/

theorem effective_views (db : DB) (u : Nat) :
    (getUserPermissions db u).effectivePermissions =
      (getUserPermissions db u).revokedPermissions.foldl jsSetDelete
        ((getUserPermissions db u).grantedPermissions.foldl jsSetInsert
          ((getUserPermissions db u).rolePermissions.foldl jsSetInsert [])) := rfl

theorem mem_effectivePermissions (db : DB) (u : Nat) (x : String) :
    x ∈ (getUserPermissions db u).effectivePermissions ↔
      ((x ∈ (getUserPermissions db u).rolePermissions ∨
        x ∈ (getUserPermissions db u).grantedPermissions) ∧
       ¬ x ∈ (getUserPermissions db u).revokedPermissions) := by
  rw [effective_views, mem_foldl_jsSetDelete, mem_foldl_jsSetInsert,
    mem_foldl_jsSetInsert]
  simp

theorem mem_grantedPermissions (db : DB) (u : Nat) (x : String) :
    x ∈ (getUserPermissions db u).grantedPermissions ↔
      ∃ r ∈ db.user_permissions, r.userId = u ∧ r.type = "grant" ∧
        ∃ p ∈ db.permissions, p.id = r.permissionId ∧ p.name = x := by
  simp only [getUserPermissions, List.mem_map, List.mem_filter,
    List.mem_flatMap, beq_iff_eq]
  constructor
  · rintro ⟨⟨y, t⟩, ⟨⟨r, ⟨hr, hru⟩, p, ⟨hp, hpid⟩, hpair⟩, ht⟩, hx⟩
    cases hpair
    exact ⟨r, hr, hru, by simpa using ht, p, hp, hpid, by simpa using hx⟩
  · rintro ⟨r, hr, hru, ht, p, hp, hpid, hx⟩
    exact ⟨(p.name, r.type), ⟨⟨r, ⟨hr, hru⟩, p, ⟨hp, hpid⟩, rfl⟩, by simpa using ht⟩,
      by simpa using hx⟩

theorem mem_revokedPermissions (db : DB) (u : Nat) (x : String) :
    x ∈ (getUserPermissions db u).revokedPermissions ↔
      ∃ r ∈ db.user_permissions, r.userId = u ∧ r.type = "revoke" ∧
        ∃ p ∈ db.permissions, p.id = r.permissionId ∧ p.name = x := by
  simp only [getUserPermissions, List.mem_map, List.mem_filter,
    List.mem_flatMap, beq_iff_eq]
  constructor
  · rintro ⟨⟨y, t⟩, ⟨⟨r, ⟨hr, hru⟩, p, ⟨hp, hpid⟩, hpair⟩, ht⟩, hx⟩
    cases hpair
    exact ⟨r, hr, hru, by simpa using ht, p, hp, hpid, by simpa using hx⟩
  · rintro ⟨r, hr, hru, ht, p, hp, hpid, hx⟩
    exact ⟨(p.name, r.type), ⟨⟨r, ⟨hr, hru⟩, p, ⟨hp, hpid⟩, rfl⟩, by simpa using ht⟩,
      by simpa using hx⟩

theorem mem_rolePermissions (db : DB) (u : Nat) (x : String) :
    x ∈ (getUserPermissions db u).rolePermissions ↔
      ∃ rp ∈ db.role_permissions, rp.role = (getUserPermissions db u).role ∧
        ∃ p ∈ db.permissions, p.id = rp.permissionId ∧ p.name = x := by
  simp only [getUserPermissions, List.mem_map, List.mem_filter,
    List.mem_flatMap, beq_iff_eq]
  constructor
  · rintro ⟨rp, ⟨hrp, hrole⟩, p, ⟨hp, hpid⟩, hx⟩
    exact ⟨rp, hrp, hrole, p, hp, hpid, hx⟩
  · rintro ⟨rp, hrp, hrole, p, hp, hpid, hx⟩
    exact ⟨rp, ⟨hrp, hrole⟩, p, ⟨hp, hpid⟩, hx⟩

theorem role_default_of_unknown (db : DB) (u : Nat)
    (h : db.users.find? (fun w => w.id == u) = none) :
    (getUserPermissions db u).role = "User" := by
  simp [getUserPermissions, h]

/-! ### Lemmas about `upsertOverride` -/

theorem mem_upsert_self (rows : List OverrideRow) (u pid : Nat) (t : String) :
    ({ userId := u, permissionId := pid, type := t } : OverrideRow) ∈
      upsertOverride rows u pid t := by
  unfold upsertOverride
  split
  · rename_i h
    rw [List.any_eq_true] at h
    obtain ⟨r, hr, hmatch⟩ := h
    rw [Bool.and_eq_true, beq_iff_eq, beq_iff_eq] at hmatch
    refine List.mem_map.mpr ⟨r, hr, ?_⟩
    rw [if_pos (by rw [Bool.and_eq_true, beq_iff_eq, beq_iff_eq]; exact hmatch)]
    obtain ⟨h1, h2⟩ := hmatch
    cases r
    simp_all
  · simp

theorem mem_upsert_of_mem (rows : List OverrideRow) (u pid : Nat) (t : String)
    (r : OverrideRow) (hr : r ∈ rows)
    (h : r.userId = u → r.permissionId = pid → r.type = t) :
    r ∈ upsertOverride rows u pid t := by
  unfold upsertOverride
  split
  · refine List.mem_map.mpr ⟨r, hr, ?_⟩
    by_cases hc : r.userId == u && r.permissionId == pid
    · rw [if_pos hc]
      rw [Bool.and_eq_true, beq_iff_eq, beq_iff_eq] at hc
      have := h hc.1 hc.2
      cases r
      simp_all
    · rw [if_neg hc]
  · exact List.mem_append_left _ hr

theorem mem_upsert_elim (rows : List OverrideRow) (u pid : Nat) (t : String)
    (r : OverrideRow) (h : r ∈ upsertOverride rows u pid t) :
    r ∈ rows ∨ (r.userId = u ∧ r.permissionId = pid ∧ r.type = t) := by
  unfold upsertOverride at h
  split at h
  · obtain ⟨s, hs, hr⟩ := List.mem_map.mp h
    by_cases hc : s.userId == u && s.permissionId == pid
    · rw [if_pos hc] at hr
      rw [Bool.and_eq_true, beq_iff_eq, beq_iff_eq] at hc
      right
      subst hr
      exact ⟨hc.1, hc.2, rfl⟩
    · rw [if_neg hc] at hr
      exact Or.inl (hr ▸ hs)
  · rcases List.mem_append.mp h with h1 | h1
    · exact Or.inl h1
    · right
      rcases List.mem_singleton.mp h1 with rfl
      exact ⟨rfl, rfl, rfl⟩

theorem upsert_pair_preserved (rows : List OverrideRow) (u pid : Nat) (t : String)
    (r : OverrideRow) (hr : r ∈ rows) :
    ∃ s ∈ upsertOverride rows u pid t,
      s.userId = r.userId ∧ s.permissionId = r.permissionId := by
  unfold upsertOverride
  split
  · refine ⟨_, List.mem_map.mpr ⟨r, hr, rfl⟩, ?_⟩
    by_cases hc : r.userId == u && r.permissionId == pid
    · rw [if_pos hc]
      exact ⟨rfl, rfl⟩
    · rw [if_neg hc]
      exact ⟨rfl, rfl⟩
  · exact ⟨r, List.mem_append_left _ hr, rfl, rfl⟩

/-- Folding a same-type upsert over a permission batch keeps every row whose
`type` is already `t`. -/
theorem mem_foldl_upsert_of_mem (perms : List Permission) (u : Nat) (t : String) :
    ∀ (rows : List OverrideRow) (r : OverrideRow), r ∈ rows → r.type = t →
    r ∈ perms.foldl (fun rows p => upsertOverride rows u p.id t) rows := by
  induction perms with
  | nil => exact fun rows r hr _ => hr
  | cons p perms ih =>
      intro rows r hr ht
      exact ih _ r (mem_upsert_of_mem _ _ _ _ _ hr (fun _ _ => ht)) ht

/-- The multi-row `INSERT ... ON DUPLICATE KEY UPDATE type = t` leaves a row
`(u, p.id, t)` for every permission of the batch. -/
theorem mem_foldl_upsert_self (perms : List Permission) (u : Nat) (t : String) :
    ∀ (rows : List OverrideRow) (p : Permission), p ∈ perms →
    ({ userId := u, permissionId := p.id, type := t } : OverrideRow) ∈
      perms.foldl (fun rows q => upsertOverride rows u q.id t) rows := by
  induction perms with
  | nil => intro rows p hp; cases hp
  | cons q perms ih =>
      intro rows p hp
      rcases List.mem_cons.mp hp with rfl | hp
      · exact mem_foldl_upsert_of_mem perms u t (upsertOverride rows u p.id t) _
          (mem_upsert_self rows u p.id t) rfl
      · exact ih _ p hp

theorem mem_foldl_upsert_elim (perms : List Permission) (u : Nat) (t : String)
    (rows : List OverrideRow) (r : OverrideRow)
    (h : r ∈ perms.foldl (fun rows q => upsertOverride rows u q.id t) rows) :
    r ∈ rows ∨ ∃ p ∈ perms, r.userId = u ∧ r.permissionId = p.id ∧ r.type = t := by
  induction perms generalizing rows with
  | nil => exact Or.inl h
  | cons q perms ih =>
      rcases ih _ h with h1 | h1
      · rcases mem_upsert_elim _ _ _ _ _ h1 with h2 | h2
        · exact Or.inl h2
        · exact Or.inr ⟨q, List.mem_cons_self _ _, h2⟩
      · obtain ⟨p, hp, h2⟩ := h1
        exact Or.inr ⟨p, List.mem_cons_of_mem _ hp, h2⟩

theorem foldl_upsert_pair_preserved (perms : List Permission) (u : Nat) (t : String)
    (rows : List OverrideRow) (r : OverrideRow) (hr : r ∈ rows) :
    ∃ s ∈ perms.foldl (fun rows q => upsertOverride rows u q.id t) rows,
      s.userId = r.userId ∧ s.permissionId = r.permissionId := by
  induction perms generalizing rows r with
  | nil => exact ⟨r, hr, rfl, rfl⟩
  | cons q perms ih =>
      obtain ⟨s, hs, h1, h2⟩ := upsert_pair_preserved rows u q.id t r hr
      obtain ⟨s2, hs2, h3, h4⟩ := ih _ _ hs
      exact ⟨s2, hs2, h3.trans h1, h4.trans h2⟩

/-! ### The uniqueness invariant of `user_permissions` -/

theorem pairMatches_set_type (u pid : Nat) (r : OverrideRow) (t : String) :
    pairMatches u pid { r with type := t } = pairMatches u pid r := rfl

theorem pairCount_upsert_update (rows : List OverrideRow) (u pid u2 pid2 : Nat)
    (t : String) :
    pairCount (rows.map (fun r =>
      if r.userId == u && r.permissionId == pid then { r with type := t } else r))
      u2 pid2 = pairCount rows u2 pid2 := by
  induction rows with
  | nil => rfl
  | cons r rows ih =>
      simp only [List.map_cons, pairCount, List.filter_cons]
      have hsame : pairMatches u2 pid2
          (if r.userId == u && r.permissionId == pid then { r with type := t } else r) =
          pairMatches u2 pid2 r := by
        split <;> rfl
      rw [hsame]
      split
      · simpa [pairCount] using congrArg Nat.succ ih
      · simpa [pairCount] using ih

theorem pairCount_append_single (rows : List OverrideRow) (x : OverrideRow)
    (u pid : Nat) :
    pairCount (rows ++ [x]) u pid =
      pairCount rows u pid + (if pairMatches u pid x then 1 else 0) := by
  simp only [pairCount, List.filter_append, List.length_append, List.filter_cons,
    List.filter_nil]
  split <;> simp

theorem pairCount_eq_zero_of_not_any (rows : List OverrideRow) (u pid : Nat)
    (h : rows.any (fun r => r.userId == u && r.permissionId == pid) = false) :
    pairCount rows u pid = 0 := by
  simp only [pairCount, List.length_eq_zero]
  rw [List.filter_eq_nil_iff]
  intro r hr
  rw [List.any_eq_false] at h
  exact fun hc => (h r hr) hc

theorem atMostOne_upsert (rows : List OverrideRow) (u pid : Nat) (t : String)
    (h : atMostOnePerPair rows) : atMostOnePerPair (upsertOverride rows u pid t) := by
  intro u2 pid2
  unfold upsertOverride
  split
  · rw [pairCount_upsert_update]
    exact h u2 pid2
  · rename_i hany
    rw [pairCount_append_single]
    by_cases hm : pairMatches u2 pid2 { userId := u, permissionId := pid, type := t }
    · have hm2 : u2 = u ∧ pid2 = pid := by
        unfold pairMatches at hm
        rw [Bool.and_eq_true, beq_iff_eq, beq_iff_eq] at hm
        exact ⟨hm.1.symm, hm.2.symm⟩
      obtain ⟨rfl, rfl⟩ := hm2
      rw [pairCount_eq_zero_of_not_any rows u2 pid2 (Bool.of_not_eq_true hany)]
      simp [hm]
    · simp [hm]
      exact h u2 pid2

theorem atMostOne_foldl_upsert (perms : List Permission) (u : Nat) (t : String) :
    ∀ rows : List OverrideRow, atMostOnePerPair rows →
      atMostOnePerPair (perms.foldl (fun rows p => upsertOverride rows u p.id t) rows) := by
  induction perms with
  | nil => exact fun _ h => h
  | cons p perms ih =>
      intro rows h
      exact ih _ (atMostOne_upsert rows u p.id t h)

theorem atMostOne_filter (rows : List OverrideRow) (q : OverrideRow → Bool)
    (h : atMostOnePerPair rows) : atMostOnePerPair (rows.filter q) := by
  intro u pid
  calc pairCount (rows.filter q) u pid
      ≤ pairCount rows u pid :=
        List.Sublist.length_le ((List.filter_sublist rows).filter _)
    _ ≤ 1 := h u pid

theorem atMostOne_bulkWriteStep (db : DB) (u : Nat) (names : List String)
    (t : String) (h : atMostOnePerPair db.user_permissions) :
    atMostOnePerPair (bulkWriteStep db u names t).user_permissions := by
  unfold bulkWriteStep
  split
  · dsimp only
    split
    · exact atMostOne_foldl_upsert _ u t _ h
    · exact h
  · exact h

theorem atMostOne_legacySingleWrite (db : DB) (u : Nat) (pid : Option Nat)
    (ty : Option String) (h : atMostOnePerPair db.user_permissions) :
    atMostOnePerPair (legacySingleWrite db u pid ty).1.user_permissions := by
  unfold legacySingleWrite
  split
  · match pid with
    | some i => exact atMostOne_upsert _ u i _ h
    | none => exact h
  · unfold deleteOverride
    match pid with
    | none => exact h
    | some i => exact atMostOne_filter _ _ h

theorem atMostOne_update (db : DB) (u : Nat) (req : UpdateReq)
    (h : atMostOnePerPair db.user_permissions) :
    atMostOnePerPair (updateUserPermission db u req).1.user_permissions := by
  unfold updateUserPermission
  split
  · exact atMostOne_bulkWriteStep _ u _ _ (atMostOne_bulkWriteStep db u _ _ h)
  · split
    · split
      · exact atMostOne_legacySingleWrite db u _ _ h
      · exact h
    · exact atMostOne_legacySingleWrite db u _ _ h

theorem atMostOne_applyUpdates (ops : List (Nat × UpdateReq)) :
    ∀ db : DB, atMostOnePerPair db.user_permissions →
      atMostOnePerPair (applyUpdates db ops).user_permissions := by
  induction ops with
  | nil => exact fun _ h => h
  | cons op ops ih =>
      intro db h
      exact ih _ (atMostOne_update db op.1 op.2 h)

/-- A name with no catalog entry can appear in no view, hence not in the
effective set. -/
theorem not_mem_effective_of_no_catalog (db : DB) (u : Nat) (x : String)
    (h : ∀ p ∈ db.permissions, ¬ p.name = x) :
    ¬ x ∈ (getUserPermissions db u).effectivePermissions := by
  rw [mem_effectivePermissions]
  rintro ⟨hbase, -⟩
  rcases hbase with hrole | hgr
  · rw [mem_rolePermissions] at hrole
    obtain ⟨rp, _, _, p, hp, _, hname⟩ := hrole
    exact h p hp hname
  · rw [mem_grantedPermissions] at hgr
    obtain ⟨r, _, _, _, p, hp, _, hname⟩ := hgr
    exact h p hp hname

/-- A stored revoke override for a catalog entry named `x` keeps `x` out of
the effective set (the deletes run after the union). -/
theorem not_mem_effective_of_revoked (db : DB) (u : Nat) (x : String)
    (h : ∃ r ∈ db.user_permissions, r.userId = u ∧ r.type = "revoke" ∧
      ∃ p ∈ db.permissions, p.id = r.permissionId ∧ p.name = x) :
    ¬ x ∈ (getUserPermissions db u).effectivePermissions := by
  rw [mem_effectivePermissions]
  rintro ⟨-, hnrv⟩
  exact hnrv ((mem_revokedPermissions db u x).mpr h)

/-- The legacy single path with a truthy `permissionName` and absent
`permissionId`: resolve through the catalog, 404 on a miss. -/
theorem update_single_eq (db : DB) (u : Nat) (pname t : String)
    (hn : ¬ pname = "") :
    updateUserPermission db u ⟨none, none, none, some t, some pname⟩ =
      (match db.permissions.find? (fun p => p.name == pname) with
       | some p => legacySingleWrite db u (some p.id) (some t)
       | none => (db, Resp.notFound "Permission not found")) := by
  simp only [updateUserPermission, Option.isSome_none, Bool.or_self, Bool.false_eq_true,
    if_false, truthyStr, truthyNat, Option.getD_some]
  rw [if_pos (by simp [hn])]

theorem legacySingleWrite_upsert (db : DB) (u : Nat) (pid : Nat) (t : String)
    (ht : ¬ t = "") :
    legacySingleWrite db u (some pid) (some t) =
      ({ db with user_permissions := (upsertOverride db.user_permissions u pid t) },
       Resp.ok "User permission updated") := by
  simp [legacySingleWrite, truthyStr, ht]

/-- The bulk branch is the grant block followed by the revoke block. -/
theorem update_bulk_eq (db : DB) (u : Nat) (g r : List String) :
    updateUserPermission db u ⟨some g, some r, none, none, none⟩ =
      (bulkWriteStep (bulkWriteStep db u g "grant") u r "revoke",
       Resp.ok "User permissions updated") := by
  simp [updateUserPermission]

theorem bulkWriteStep_eq (db : DB) (u : Nat) (names : List String) (t : String)
    (h : 0 < names.length) :
    bulkWriteStep db u names t =
      (if 0 < (db.permissions.filter (fun p => names.contains p.name)).length then
        { db with user_permissions :=
            ((db.permissions.filter (fun p => names.contains p.name)).foldl
              (fun rows p => upsertOverride rows u p.id t) db.user_permissions) }
      else db) := by
  unfold bulkWriteStep
  rw [if_pos h]

theorem bulkWriteStep_permissions (db : DB) (u : Nat) (names : List String)
    (t : String) : (bulkWriteStep db u names t).permissions = db.permissions := by
  unfold bulkWriteStep
  split
  · dsimp only
    split <;> rfl
  · rfl

theorem bulkWriteStep_role_permissions (db : DB) (u : Nat) (names : List String)
    (t : String) :
    (bulkWriteStep db u names t).role_permissions = db.role_permissions := by
  unfold bulkWriteStep
  split
  · dsimp only
    split <;> rfl
  · rfl

/-- Every row present after one bulk block was already stored or targets a
permission resolvable from the block's name list. -/
theorem mem_bulkWriteStep_elim (db : DB) (u : Nat) (names : List String)
    (t : String) (row : OverrideRow)
    (h : row ∈ (bulkWriteStep db u names t).user_permissions) :
    row ∈ db.user_permissions ∨
      ∃ p ∈ db.permissions, p.id = row.permissionId ∧ names.contains p.name := by
  unfold bulkWriteStep at h
  split at h
  · dsimp only at h
    split at h
    · rcases mem_foldl_upsert_elim _ _ _ _ _ h with h1 | ⟨p, hp, _, hpid, _⟩
      · exact Or.inl h1
      · exact Or.inr ⟨p, (List.mem_filter.mp hp).1, hpid.symm, (List.mem_filter.mp hp).2⟩
    · exact Or.inl h
  · exact Or.inl h

theorem mem_getRolePermissions (db : DB) (r : String) (x : String) :
    x ∈ (getRolePermissions db r).permissions ↔
      ∃ rp ∈ db.role_permissions, rp.role = r ∧
        ∃ p ∈ db.permissions, p.id = rp.permissionId ∧ p.name = x := by
  simp only [getRolePermissions, List.mem_flatMap, List.mem_filter, List.mem_map,
    beq_iff_eq]
  constructor
  · rintro ⟨rp, ⟨hrp, hrole⟩, p, ⟨hp, hpid⟩, hx⟩
    exact ⟨rp, hrp, hrole, p, hp, hpid, hx⟩
  · rintro ⟨rp, hrp, hrole, p, hp, hpid, hx⟩
    exact ⟨rp, ⟨hrp, hrole⟩, p, ⟨hp, hpid⟩, hx⟩

/-- The role replace, in closed form: keep the other roles' rows, append one
row per catalog permission whose name occurs in the requested list.  (When
the list is empty or nothing resolves, the appended part is empty.) -/
theorem updateRolePermissions_eq (db : DB) (r : String) (S : List String) :
    updateRolePermissions db r (some S) =
      ({ db with role_permissions :=
          ((db.role_permissions.filter (fun rp => !(rp.role == r))) ++
            (db.permissions.filter (fun p => S.contains p.name)).map
              (fun p => { role := r, permissionId := p.id })) },
       Resp.ok "Role permissions updated") := by
  simp only [updateRolePermissions]
  by_cases hS : 0 < S.length
  · rw [if_pos hS]
    by_cases hperm : 0 < (db.permissions.filter (fun p => S.contains p.name)).length
    · rw [if_pos hperm]
    · rw [if_neg hperm]
      have : db.permissions.filter (fun p => S.contains p.name) = [] :=
        List.length_eq_zero.mp (Nat.eq_zero_of_not_pos hperm)
      rw [this]
      simp
  · rw [if_neg hS]
    have hSnil : S = [] := List.length_eq_zero.mp (Nat.eq_zero_of_not_pos hS)
    subst hSnil
    have : db.permissions.filter (fun p => ([] : List String).contains p.name) = [] := by
      simp
    rw [this]
    simp

theorem filter_pair_map_update (rows : List OverrideRow) (u q : Nat) (t : String)
    (u0 pid : Nat) (hne : ¬ pid = q) :
    (rows.map (fun r =>
      if r.userId == u && r.permissionId == q then { r with type := t } else r)).filter
        (pairMatches u0 pid) =
      rows.filter (pairMatches u0 pid) := by
  induction rows with
  | nil => rfl
  | cons a l ih =>
      rw [List.map_cons, List.filter_cons, List.filter_cons]
      have hpm : pairMatches u0 pid
          (if a.userId == u && a.permissionId == q then { a with type := t } else a) =
          pairMatches u0 pid a := by
        split <;> rfl
      rw [hpm]
      by_cases hc : pairMatches u0 pid a = true
      · rw [if_pos hc, if_pos hc, ih]
        have hfa : (if a.userId == u && a.permissionId == q then { a with type := t }
            else a) = a := by
          rw [if_neg]
          intro hq
          rw [Bool.and_eq_true, beq_iff_eq, beq_iff_eq] at hq
          have hc2 := hc
          unfold pairMatches at hc2
          rw [Bool.and_eq_true, beq_iff_eq, beq_iff_eq] at hc2
          apply hne
          rw [← hc2.2, hq.2]
        rw [hfa]
      · rw [if_neg hc, if_neg hc, ih]

theorem filter_pair_upsert_ne (rows : List OverrideRow) (u q : Nat) (t : String)
    (u0 pid : Nat) (hne : ¬ pid = q) :
    (upsertOverride rows u q t).filter (pairMatches u0 pid) =
      rows.filter (pairMatches u0 pid) := by
  unfold upsertOverride
  split
  · exact filter_pair_map_update rows u q t u0 pid hne
  · rw [List.filter_append]
    have hq : (q == pid) = false := by
      rw [beq_eq_false_iff_ne]
      exact fun h => hne h.symm
    have hnil : ([{ userId := u, permissionId := q, type := t }] :
        List OverrideRow).filter (pairMatches u0 pid) = [] := by
      simp [pairMatches, hq]
    rw [hnil, List.append_nil]

theorem filter_pair_foldl_upsert (perms : List Permission) (u : Nat) (t : String)
    (u0 pid : Nat) :
    ∀ rows : List OverrideRow, (∀ p ∈ perms, ¬ pid = p.id) →
      ((perms.foldl (fun rows p => upsertOverride rows u p.id t) rows).filter
        (pairMatches u0 pid)) = rows.filter (pairMatches u0 pid) := by
  induction perms with
  | nil => exact fun _ _ => rfl
  | cons p perms ih =>
      intro rows h
      rw [List.foldl_cons, ih _ (fun q hq => h q (List.mem_cons_of_mem _ hq))]
      exact filter_pair_upsert_ne rows u p.id t u0 pid (h p (List.mem_cons_self _ _))

theorem filter_pair_bulkWriteStep (db : DB) (u : Nat) (names : List String)
    (t : String) (u0 pid : Nat)
    (h : ∀ p ∈ db.permissions, p.id = pid → (names.contains p.name) = false) :
    ((bulkWriteStep db u names t).user_permissions.filter (pairMatches u0 pid)) =
      db.user_permissions.filter (pairMatches u0 pid) := by
  unfold bulkWriteStep
  split
  · dsimp only
    split
    · apply filter_pair_foldl_upsert
      intro p hp hpe
      obtain ⟨hp1, hp2⟩ := List.mem_filter.mp hp
      have hfalse := h p hp1 hpe.symm
      rw [hfalse] at hp2
      cases hp2
    · rfl
  · rfl

theorem bulkWriteStep_pair_preserved (db : DB) (u : Nat) (names : List String)
    (t : String) (row : OverrideRow) (hrow : row ∈ db.user_permissions) :
    ∃ row2 ∈ (bulkWriteStep db u names t).user_permissions,
      row2.userId = row.userId ∧ row2.permissionId = row.permissionId := by
  unfold bulkWriteStep
  split
  · dsimp only
    split
    · exact foldl_upsert_pair_preserved _ u t _ row hrow
    · exact ⟨row, hrow, rfl, rfl⟩
  · exact ⟨row, hrow, rfl, rfl⟩

theorem bulkRevokeF_none (db : DB) (u : Nat) (toRevoke : List String) (k : Nat) :
    bulkRevokeF db u toRevoke none k =
      (bulkWriteStep db u toRevoke "revoke", Resp.ok "User permissions updated") := by
  unfold bulkRevokeF bulkWriteStep
  by_cases h1 : 0 < toRevoke.length
  · rw [if_pos h1, if_pos h1, if_neg (by simp)]
    dsimp only
    by_cases h2 : 0 < (db.permissions.filter (fun p => toRevoke.contains p.name)).length
    · rw [if_pos h2, if_pos h2, if_neg (by simp)]
    · rw [if_neg h2, if_neg h2]
  · rw [if_neg h1, if_neg h1]

/-- With no storage failure the fallible bulk model coincides with the
mutator's bulk branch. -/
theorem bulkF_none (db : DB) (u : Nat) (g r : List String) :
    bulkF db u g r none =
      updateUserPermission db u ⟨some g, some r, none, none, none⟩ := by
  rw [update_bulk_eq]
  unfold bulkF
  by_cases h1 : 0 < g.length
  · rw [if_pos h1, if_neg (by simp)]
    dsimp only
    by_cases h2 : 0 < (db.permissions.filter (fun p => g.contains p.name)).length
    · rw [if_pos h2, if_neg (by simp), bulkRevokeF_none]
      rw [bulkWriteStep_eq db u g "grant" h1, if_pos h2]
    · rw [if_neg h2, bulkRevokeF_none]
      rw [bulkWriteStep_eq db u g "grant" h1, if_neg h2]
  · rw [if_neg h1, bulkRevokeF_none]
    have hstep : bulkWriteStep db u g "grant" = db := by
      unfold bulkWriteStep
      rw [if_neg h1]
    rw [hstep]

/-- Failing the third issued query (the revoke-side SELECT) commits exactly
the grant writes and answers 500. -/
theorem bulkF_fail_after_grants (db : DB) (u : Nat) (g r : List String)
    (h1 : 0 < g.length)
    (h2 : 0 < (db.permissions.filter (fun p => g.contains p.name)).length)
    (h3 : 0 < r.length) :
    bulkF db u g r (some 2) = (bulkWriteStep db u g "grant", Resp.serverError) := by
  unfold bulkF
  rw [if_pos h1, if_neg (by simp)]
  dsimp only
  rw [if_pos h2, if_neg (by simp)]
  unfold bulkRevokeF
  rw [if_pos h3, if_pos rfl]
  rw [bulkWriteStep_eq db u g "grant" h1, if_pos h2]

/-- Failing the query right after the role-policy DELETE commits the delete
and never reaches the insert. -/
theorem roleReplaceF_fail_after_delete (db : DB) (rn : String) (S : List String)
    (h : 0 < S.length) :
    roleReplaceF db rn (some S) (some 1) =
      ({ db with role_permissions :=
          (db.role_permissions.filter (fun rp => !(rp.role == rn))) },
       Resp.serverError) := by
  unfold roleReplaceF
  rw [if_neg (by simp)]
  dsimp only
  rw [if_pos h, if_pos rfl]

/-! ### Claim theorems -/

/-- **C1**: for every store and user, `getUserPermissions` returns
`effectivePermissions` equal (as a set) to
`(rolePermissions ∪ grantedPermissions) \ revokedPermissions`; the granted,
revoked and role views are exactly the stored grant overrides, revoke
overrides, and the baseline of the user's role; and a user identifier with no
stored row falls back to the default `"User"` role (the resolver is a total
function, so the call never fails). -/
theorem c1_resolver_effective_set (db : DB) (u : Nat) :
    (∀ x, x ∈ (getUserPermissions db u).effectivePermissions ↔
      ((x ∈ (getUserPermissions db u).rolePermissions ∨
        x ∈ (getUserPermissions db u).grantedPermissions) ∧
       ¬ x ∈ (getUserPermissions db u).revokedPermissions)) ∧
    (∀ x, x ∈ (getUserPermissions db u).grantedPermissions ↔
      ∃ r ∈ db.user_permissions, r.userId = u ∧ r.type = "grant" ∧
        ∃ p ∈ db.permissions, p.id = r.permissionId ∧ p.name = x) ∧
    (∀ x, x ∈ (getUserPermissions db u).revokedPermissions ↔
      ∃ r ∈ db.user_permissions, r.userId = u ∧ r.type = "revoke" ∧
        ∃ p ∈ db.permissions, p.id = r.permissionId ∧ p.name = x) ∧
    (∀ x, x ∈ (getUserPermissions db u).rolePermissions ↔
      ∃ rp ∈ db.role_permissions, rp.role = (getUserPermissions db u).role ∧
        ∃ p ∈ db.permissions, p.id = rp.permissionId ∧ p.name = x) ∧
    (db.users.find? (fun w => w.id == u) = none →
      (getUserPermissions db u).role = "User") :=
  ⟨mem_effectivePermissions db u, mem_grantedPermissions db u,
   mem_revokedPermissions db u, mem_rolePermissions db u,
   role_default_of_unknown db u⟩

theorem c1_resolver_effective_set_witness :
    ("a" ∈ (getUserPermissions dbW 99).effectivePermissions ↔
      (("a" ∈ (getUserPermissions dbW 99).rolePermissions ∨
        "a" ∈ (getUserPermissions dbW 99).grantedPermissions) ∧
       ¬ "a" ∈ (getUserPermissions dbW 99).revokedPermissions)) ∧
    (getUserPermissions dbW 99).role = "User" :=
  ⟨(c1_resolver_effective_set dbW 99).1 "a",
   (c1_resolver_effective_set dbW 99).2.2.2.2 (by decide)⟩

/-- **C2**: starting from a store satisfying the uniqueness invariant, any
sequence of mutation calls (bulk or single, any mix of grant/revoke types)
preserves it — at most one override row per `(userId, permissionId)` pair —
and an upsert aimed at an already-present pair overwrites that row's `type`
in place (same row count, updated row present) instead of adding a second
row. -/
theorem c2_override_uniqueness (db : DB) (ops : List (Nat × UpdateReq))
    (h : atMostOnePerPair db.user_permissions) :
    atMostOnePerPair (applyUpdates db ops).user_permissions ∧
    ∀ (rows : List OverrideRow) (u pid : Nat) (t : String),
      (∃ r ∈ rows, r.userId = u ∧ r.permissionId = pid) →
      (upsertOverride rows u pid t).length = rows.length ∧
      ({ userId := u, permissionId := pid, type := t } : OverrideRow) ∈
        upsertOverride rows u pid t := by
  refine ⟨atMostOne_applyUpdates ops db h, ?_⟩
  rintro rows u pid t ⟨r, hr, hu, hp⟩
  have hany : rows.any (fun r => r.userId == u && r.permissionId == pid) = true :=
    List.any_eq_true.mpr ⟨r, hr, by
      rw [Bool.and_eq_true, beq_iff_eq, beq_iff_eq]; exact ⟨hu, hp⟩⟩
  constructor
  · unfold upsertOverride
    rw [if_pos hany, List.length_map]
  · exact mem_upsert_self rows u pid t

theorem c2_override_uniqueness_witness :
    atMostOnePerPair (applyUpdates dbO
      [(7, { grantPermissions := some ["b"], revokePermissions := none,
             permissionId := none, type := none, permissionName := none })]).user_permissions ∧
    (upsertOverride [{ userId := 7, permissionId := 2, type := "revoke" }] 7 2 "grant").length
      = 1 ∧
    ({ userId := 7, permissionId := 2, type := "grant" } : OverrideRow) ∈
      upsertOverride [{ userId := 7, permissionId := 2, type := "revoke" }] 7 2 "grant" := by
  have h := c2_override_uniqueness dbO
    [(7, { grantPermissions := some ["b"], revokePermissions := none,
           permissionId := none, type := none, permissionName := none })]
    (fun _ _ => List.length_filter_le _ _)
  have h2 := h.2 [{ userId := 7, permissionId := 2, type := "revoke" }] 7 2 "grant"
    ⟨{ userId := 7, permissionId := 2, type := "revoke" }, by simp, rfl, rfl⟩
  exact ⟨h.1, h2.1, h2.2⟩

/-- **C10**: the role-policy read hardcodes `userCount` to `0` for every
store and role (so it never reflects how many users hold the role); it echoes
the requested role name in both identifier fields, and only `permissions`
depends on the stored state. -/
theorem c10_userCount_always_zero (db : DB) (r : String) :
    (getRolePermissions db r).userCount = 0 ∧
    (getRolePermissions db r).roleId = r ∧
    (getRolePermissions db r).roleName = r :=
  ⟨rfl, rfl, rfl⟩

/-- **C6**: `resetUserPermissions` deletes every override row of the user and
no other row, is idempotent (repeating it is a no-op on store and response),
always answers success (also when the user had no rows, since the result does
not depend on a row being present), and a subsequent resolve finds empty
granted and revoked views and an effective set equal (as a set) to the role
baseline. -/
theorem c6_reset_overrides (db : DB) (u : Nat) :
    (∀ row ∈ (resetUserPermissions db u).1.user_permissions, ¬ row.userId = u) ∧
    (∀ row ∈ db.user_permissions, ¬ row.userId = u →
      row ∈ (resetUserPermissions db u).1.user_permissions) ∧
    resetUserPermissions (resetUserPermissions db u).1 u = resetUserPermissions db u ∧
    (resetUserPermissions db u).2 = Resp.ok "User permissions reset" ∧
    (getUserPermissions (resetUserPermissions db u).1 u).grantedPermissions = [] ∧
    (getUserPermissions (resetUserPermissions db u).1 u).revokedPermissions = [] ∧
    (∀ x, x ∈ (getUserPermissions (resetUserPermissions db u).1 u).effectivePermissions ↔
      x ∈ (getUserPermissions (resetUserPermissions db u).1 u).rolePermissions) := by
  have hno : ∀ row ∈ (resetUserPermissions db u).1.user_permissions, ¬ row.userId = u := by
    intro row hrow
    have := (List.mem_filter.mp hrow).2
    simpa using this
  have hgr : (getUserPermissions (resetUserPermissions db u).1 u).grantedPermissions = [] := by
    rw [List.eq_nil_iff_forall_not_mem]
    intro x hx
    rw [mem_grantedPermissions] at hx
    obtain ⟨r, hr, hru, _⟩ := hx
    exact hno r hr hru
  have hrv : (getUserPermissions (resetUserPermissions db u).1 u).revokedPermissions = [] := by
    rw [List.eq_nil_iff_forall_not_mem]
    intro x hx
    rw [mem_revokedPermissions] at hx
    obtain ⟨r, hr, hru, _⟩ := hx
    exact hno r hr hru
  refine ⟨hno, ?_, ?_, rfl, hgr, hrv, ?_⟩
  · intro row hrow hne
    exact List.mem_filter.mpr ⟨hrow, by simpa using hne⟩
  · have hff : (db.user_permissions.filter (fun r => !(r.userId == u))).filter
        (fun r => !(r.userId == u)) =
        db.user_permissions.filter (fun r => !(r.userId == u)) :=
      List.filter_eq_self.mpr (fun a ha => (List.mem_filter.mp ha).2)
    simp only [resetUserPermissions]
    rw [hff]
  · intro x
    rw [mem_effectivePermissions, hgr, hrv]
    simp

theorem c6_reset_overrides_witness :
    ({ userId := 7, permissionId := 2, type := "revoke" } : OverrideRow) ∈
      (resetUserPermissions dbO 8).1.user_permissions ∧
    resetUserPermissions (resetUserPermissions dbO 8).1 8 = resetUserPermissions dbO 8 ∧
    ∀ x, x ∈ (getUserPermissions (resetUserPermissions dbO 8).1 8).effectivePermissions ↔
      x ∈ (getUserPermissions (resetUserPermissions dbO 8).1 8).rolePermissions :=
  ⟨(c6_reset_overrides dbO 8).2.1 _ (by decide) (by decide),
   (c6_reset_overrides dbO 8).2.2.1,
   (c6_reset_overrides dbO 8).2.2.2.2.2.2⟩

/-- **C7** is false on the code: the claimed counterexample input — a
mutation request with neither `grantPermissions` nor `revokePermissions` nor
any of the legacy fields — is *not* rejected: `updateUserPermission` falls
through to the legacy delete with `permissionId` undefined (SQL `NULL`),
which matches no row, and answers plain success on the store `dbO`. -/
theorem c7_counterexample_no_validation :
    updateUserPermission dbO 7 emptyReq = (dbO, Resp.ok "User permission updated") := by
  rfl

/-- **C7 (amended)**: a mutation request with neither bulk fields nor legacy
fields is not rejected as a validation error; it falls through to the legacy
path, whose `DELETE ... WHERE permissionId = NULL` matches no row, so the
call leaves the store unchanged and answers success (`200`, not an error). -/
theorem c7_amended_fallthrough (db : DB) (u : Nat) :
    updateUserPermission db u emptyReq = (db, Resp.ok "User permission updated") := by
  rfl

/-- **C3**: granting a permission name and then revoking it — as two
successive legacy single updates, or as one bulk call listing the name in
both `grantPermissions` and `revokePermissions` — leaves the name out of the
user's effective set, also when the name belongs to the role baseline; in
the dual-membership bulk case the revoke block runs second, so revoke is the
deterministic winner.  (The hypothesis excludes the empty string, which a JS
truthiness check makes indistinguishable from an absent `permissionName`
field on the legacy path.) -/
theorem c3_grant_then_revoke (db : DB) (u : Nat) (pname : String)
    (hn : ¬ pname = "") :
    (¬ pname ∈ (getUserPermissions
        (updateUserPermission
          (updateUserPermission db u ⟨none, none, none, some "grant", some pname⟩).1
          u ⟨none, none, none, some "revoke", some pname⟩).1 u).effectivePermissions) ∧
    (¬ pname ∈ (getUserPermissions
        (updateUserPermission db u ⟨some [pname], some [pname], none, none, none⟩).1
        u).effectivePermissions) := by
  constructor
  · rw [update_single_eq db u pname "grant" hn]
    rcases hfind : db.permissions.find? (fun p => p.name == pname) with _ | p
    · rw [hfind]
      dsimp only
      rw [update_single_eq db u pname "revoke" hn, hfind]
      dsimp only
      exact not_mem_effective_of_no_catalog db u pname (fun p hp hname => by
        have h2 := List.find?_eq_none.mp hfind p hp
        simp [hname] at h2)
    · rw [hfind]
      dsimp only
      rw [legacySingleWrite_upsert db u p.id "grant" (by decide)]
      dsimp only
      rw [update_single_eq _ u pname "revoke" hn]
      dsimp only
      rw [hfind]
      dsimp only
      rw [legacySingleWrite_upsert _ u p.id "revoke" (by decide)]
      dsimp only
      apply not_mem_effective_of_revoked
      refine ⟨{ userId := u, permissionId := p.id, type := "revoke" },
        mem_upsert_self _ u p.id "revoke", rfl, rfl, p, ?_, rfl, ?_⟩
      · exact List.mem_of_find?_eq_some hfind
      · have := List.find?_some hfind
        exact beq_iff_eq.mp this
  · rw [update_bulk_eq]
    dsimp only
    have h1 : 0 < ([pname] : List String).length := by simp
    rw [bulkWriteStep_eq db u [pname] "grant" h1]
    by_cases hp : 0 < (db.permissions.filter
        (fun p => ([pname] : List String).contains p.name)).length
    · rw [if_pos hp]
      rw [bulkWriteStep_eq _ u [pname] "revoke" h1]
      dsimp only
      rw [if_pos hp]
      obtain ⟨q, hq⟩ :=
        List.exists_mem_of_ne_nil _ (List.length_pos.mp hp)
      apply not_mem_effective_of_revoked
      refine ⟨{ userId := u, permissionId := q.id, type := "revoke" },
        mem_foldl_upsert_self _ u "revoke" _ q hq, rfl, rfl, q, ?_, rfl, ?_⟩
      · exact (List.mem_filter.mp hq).1
      · have h3 := (List.mem_filter.mp hq).2
        simpa using h3
    · rw [if_neg hp]
      rw [bulkWriteStep_eq db u [pname] "revoke" h1, if_neg hp]
      refine not_mem_effective_of_no_catalog db u pname (fun p hpp hname => hp ?_)
      exact List.length_pos_of_mem
        (List.mem_filter.mpr ⟨hpp, by simp [hname]⟩)

theorem c3_grant_then_revoke_witness :
    ¬ "a" = "" ∧
    (¬ "a" ∈ (getUserPermissions
        (updateUserPermission
          (updateUserPermission dbW 7 ⟨none, none, none, some "grant", some "a"⟩).1
          7 ⟨none, none, none, some "revoke", some "a"⟩).1 7).effectivePermissions) ∧
    (¬ "a" ∈ (getUserPermissions
        (updateUserPermission dbW 7 ⟨some ["a"], some ["a"], none, none, none⟩).1
        7).effectivePermissions) :=
  ⟨by decide, (c3_grant_then_revoke dbW 7 "a" (by decide)).1,
   (c3_grant_then_revoke dbW 7 "a" (by decide)).2⟩

/-- **C4**: the bulk path answers success whatever the name lists contain and
writes only rows whose permission resolves from the catalog out of the
requested names (unknown names are silently dropped); the legacy single path
given a truthy `permissionName`, a falsy `permissionId`, and no catalog entry
for the name answers 404 `Permission not found` with the store unchanged. -/
theorem c4_unknown_name_policy (db : DB) (u : Nat) :
    (∀ g r : List String,
      (updateUserPermission db u ⟨some g, some r, none, none, none⟩).2 =
        Resp.ok "User permissions updated" ∧
      ∀ row ∈ (updateUserPermission db u
          ⟨some g, some r, none, none, none⟩).1.user_permissions,
        row ∈ db.user_permissions ∨
        ∃ p ∈ db.permissions, p.id = row.permissionId ∧
          (g.contains p.name ∨ r.contains p.name)) ∧
    (∀ (s : String) (ty : Option String) (pid : Option Nat), ¬ s = "" →
      truthyNat pid = false →
      (∀ p ∈ db.permissions, ¬ p.name = s) →
      updateUserPermission db u ⟨none, none, pid, ty, some s⟩ =
        (db, Resp.notFound "Permission not found")) := by
  constructor
  · intro g r
    rw [update_bulk_eq]
    refine ⟨rfl, ?_⟩
    intro row hrow
    rcases mem_bulkWriteStep_elim _ u r "revoke" row hrow with h1 | ⟨p, hp, hpid, hc⟩
    · rcases mem_bulkWriteStep_elim db u g "grant" row h1 with h2 | ⟨p, hp, hpid, hc⟩
      · exact Or.inl h2
      · exact Or.inr ⟨p, hp, hpid, Or.inl hc⟩
    · rw [bulkWriteStep_permissions] at hp
      exact Or.inr ⟨p, hp, hpid, Or.inr hc⟩
  · intro s ty pid hs hpid hcat
    have hfind : db.permissions.find? (fun p => p.name == (some s).getD "") = none :=
      List.find?_eq_none.mpr (fun p hp => by simpa using hcat p hp)
    simp only [updateUserPermission]
    rw [if_neg (by simp)]
    rw [if_pos (by simp [truthyStr, hs, hpid])]
    rw [hfind]

theorem c4_unknown_name_policy_witness :
    (updateUserPermission dbW 7 ⟨some ["a", "nope"], some ["b"], none, none, none⟩).2 =
      Resp.ok "User permissions updated" ∧
    (({ userId := 7, permissionId := 1, type := "grant" } : OverrideRow) ∈
        dbW.user_permissions ∨
      ∃ p ∈ dbW.permissions, p.id = 1 ∧
        ((["a", "nope"] : List String).contains p.name ∨
         (["b"] : List String).contains p.name)) ∧
    updateUserPermission dbW 7 ⟨none, none, none, some "grant", some "nope"⟩ =
      (dbW, Resp.notFound "Permission not found") :=
  ⟨((c4_unknown_name_policy dbW 7).1 ["a", "nope"] ["b"]).1,
   ((c4_unknown_name_policy dbW 7).1 ["a", "nope"] ["b"]).2
     { userId := 7, permissionId := 1, type := "grant" } (by decide),
   (c4_unknown_name_policy dbW 7).2 "nope" (some "grant") none (by decide) rfl
     (by decide)⟩

/-- **C5**: replacing a role's permission list with `S` and reading it back
yields exactly the names of `S` present in the catalog (unresolvable names
dropped); every remaining row of the role targets a catalog permission named
in `S` (the replace is full — the old rows for the role are deleted first);
and repeating the same replace is idempotent, store and response alike.
The hypothesis is the primary-key property of `permissions.id`. -/
theorem c5_set_then_get_role (db : DB) (r : String) (S : List String)
    (hid : (db.permissions.map Permission.id).Nodup) :
    (∀ x, x ∈ (getRolePermissions (updateRolePermissions db r (some S)).1 r).permissions ↔
      (S.contains x = true ∧ ∃ p ∈ db.permissions, p.name = x)) ∧
    (∀ rp ∈ (updateRolePermissions db r (some S)).1.role_permissions, rp.role = r →
      ∃ p ∈ db.permissions, p.id = rp.permissionId ∧ S.contains p.name) ∧
    updateRolePermissions (updateRolePermissions db r (some S)).1 r (some S) =
      updateRolePermissions db r (some S) := by
  rw [updateRolePermissions_eq]
  dsimp only
  refine ⟨?_, ?_, ?_⟩
  · intro x
    rw [mem_getRolePermissions]
    dsimp only
    constructor
    · rintro ⟨rp, hrp, hrole, pe, hpe, hpid, hname⟩
      rcases List.mem_append.mp hrp with h1 | h2
      · have := (List.mem_filter.mp h1).2
        rw [hrole] at this
        simp at this
      · obtain ⟨q, hq, rfl⟩ := List.mem_map.mp h2
        obtain ⟨hq1, hq2⟩ := List.mem_filter.mp hq
        have hpeq : pe = q :=
          List.inj_on_of_nodup_map hid hpe hq1 hpid
        subst hpeq
        exact ⟨by rw [← hname]; exact hq2, pe, hq1, hname⟩
    · rintro ⟨hcx, p, hp, hname⟩
      refine ⟨{ role := r, permissionId := p.id }, ?_, rfl, p, hp, rfl, hname⟩
      exact List.mem_append_right _
        (List.mem_map.mpr ⟨p, List.mem_filter.mpr ⟨hp, by rw [hname]; exact hcx⟩, rfl⟩)
  · intro rp hrp hrole
    rcases List.mem_append.mp hrp with h1 | h2
    · have := (List.mem_filter.mp h1).2
      rw [hrole] at this
      simp at this
    · obtain ⟨q, hq, rfl⟩ := List.mem_map.mp h2
      obtain ⟨hq1, hq2⟩ := List.mem_filter.mp hq
      exact ⟨q, hq1, rfl, hq2⟩
  · rw [updateRolePermissions_eq]
    dsimp only
    rw [List.filter_append]
    have h1 : (db.role_permissions.filter (fun rp => !(rp.role == r))).filter
        (fun rp => !(rp.role == r)) =
        db.role_permissions.filter (fun rp => !(rp.role == r)) :=
      List.filter_eq_self.mpr (fun a ha => (List.mem_filter.mp ha).2)
    have h2 : ((db.permissions.filter (fun p => S.contains p.name)).map
        (fun p => ({ role := r, permissionId := p.id } : RolePermRow))).filter
        (fun rp => !(rp.role == r)) = [] :=
      List.filter_eq_nil_iff.mpr (fun a ha => by
        obtain ⟨p, _, rfl⟩ := List.mem_map.mp ha
        simp)
    rw [h1, h2, List.append_nil]

theorem c5_set_then_get_role_witness :
    (("b" ∈ (getRolePermissions
        (updateRolePermissions dbW "Instructor" (some ["b", "nope"])).1
        "Instructor").permissions) ↔
      ((["b", "nope"] : List String).contains "b" = true ∧
        ∃ p ∈ dbW.permissions, p.name = "b")) ∧
    updateRolePermissions
        (updateRolePermissions dbW "Instructor" (some ["b", "nope"])).1
        "Instructor" (some ["b", "nope"]) =
      updateRolePermissions dbW "Instructor" (some ["b", "nope"]) :=
  ⟨(c5_set_then_get_role dbW "Instructor" ["b", "nope"] (by decide)).1 "b",
   (c5_set_then_get_role dbW "Instructor" ["b", "nope"] (by decide)).2.2⟩

/-- **C9**: the bulk path never deletes an override row.  For a pair
`(u0, pid)` whose permission name occurs in neither `grantPermissions` nor
`revokePermissions`, the stored rows for that pair (present or absent) are
exactly what they were before the call; and every row present before the
call still has a row for its pair afterwards. -/
theorem c9_bulk_no_delete (db : DB) (u : Nat) (g r : List String) (u0 pid : Nat)
    (h : ∀ p ∈ db.permissions, p.id = pid →
      (g.contains p.name) = false ∧ (r.contains p.name) = false) :
    ((updateUserPermission db u ⟨some g, some r, none, none, none⟩).1.user_permissions.filter
        (pairMatches u0 pid)) =
      db.user_permissions.filter (pairMatches u0 pid) ∧
    ∀ row ∈ db.user_permissions,
      ∃ row2 ∈ (updateUserPermission db u
          ⟨some g, some r, none, none, none⟩).1.user_permissions,
        row2.userId = row.userId ∧ row2.permissionId = row.permissionId := by
  rw [update_bulk_eq]
  dsimp only
  constructor
  · rw [filter_pair_bulkWriteStep _ u r "revoke" u0 pid (fun p hp hid => by
      rw [bulkWriteStep_permissions] at hp
      exact (h p hp hid).2)]
    exact filter_pair_bulkWriteStep db u g "grant" u0 pid
      (fun p hp hid => (h p hp hid).1)
  · intro row hrow
    obtain ⟨row1, hrow1, h1, h2⟩ :=
      bulkWriteStep_pair_preserved db u g "grant" row hrow
    obtain ⟨row2, hrow2, h3, h4⟩ :=
      bulkWriteStep_pair_preserved _ u r "revoke" row1 hrow1
    exact ⟨row2, hrow2, h3.trans h1, h4.trans h2⟩

theorem c9_bulk_no_delete_witness :
    ((updateUserPermission dbO 7
        ⟨some ["a"], some [], none, none, none⟩).1.user_permissions.filter
        (pairMatches 7 2)) =
      dbO.user_permissions.filter (pairMatches 7 2) ∧
    ∃ row2 ∈ (updateUserPermission dbO 7
        ⟨some ["a"], some [], none, none, none⟩).1.user_permissions,
      row2.userId = 7 ∧ row2.permissionId = 2 :=
  ⟨(c9_bulk_no_delete dbO 7 ["a"] [] 7 2 (by decide)).1,
   (c9_bulk_no_delete dbO 7 ["a"] [] 7 2 (by decide)).2
     { userId := 7, permissionId := 2, type := "revoke" } (by decide)⟩

/-- **C8** is false on the code: no transaction wraps the multi-statement
paths — each `pool.query` autocommits on its own.  On the concrete store
`dbW`, failing the third query of a bulk call (the revoke-side SELECT)
leaves the grant write committed while the call answers 500, so the call
failed yet the store changed; and failing the role replace's second query
leaves the role's rows deleted with nothing inserted, so a reader at that
point observes the role with an empty permission set. -/
theorem c8_counterexample_not_atomic :
    (bulkF dbW 7 ["a"] ["b"] (some 2)).2 = Resp.serverError ∧
    ¬ (bulkF dbW 7 ["a"] ["b"] (some 2)).1 = dbW ∧
    (bulkF dbW 7 ["a"] ["b"] (some 2)).1.user_permissions =
      [{ userId := 7, permissionId := 1, type := "grant" }] ∧
    (roleReplaceF dbW "Instructor" (some ["a"]) (some 1)).2 = Resp.serverError ∧
    (getRolePermissions (roleReplaceF dbW "Instructor" (some ["a"]) (some 1)).1
      "Instructor").permissions = [] ∧
    ¬ (getRolePermissions dbW "Instructor").permissions = [] :=
  ⟨rfl, by decide, rfl, rfl, rfl, by decide⟩

/-- **C8 (amended)**: the multi-statement paths are not transactional; each
statement autocommits.  When no query fails, the fallible bulk model agrees
with the mutator's bulk branch; a failure between the grant and revoke
statements leaves exactly the grant writes committed with a 500 response
(partial commit); and a failure after the role-policy DELETE leaves the
role's rows deleted and nothing inserted, the observable empty-permission
window. -/
theorem c8_amended_autocommit :
    (∀ (db : DB) (u : Nat) (g r : List String),
      bulkF db u g r none =
        updateUserPermission db u ⟨some g, some r, none, none, none⟩) ∧
    (∀ (db : DB) (u : Nat) (g r : List String),
      0 < g.length →
      0 < (db.permissions.filter (fun p => g.contains p.name)).length →
      0 < r.length →
      bulkF db u g r (some 2) = (bulkWriteStep db u g "grant", Resp.serverError)) ∧
    (∀ (db : DB) (rn : String) (S : List String), 0 < S.length →
      roleReplaceF db rn (some S) (some 1) =
        ({ db with role_permissions :=
            (db.role_permissions.filter (fun rp => !(rp.role == rn))) },
         Resp.serverError)) :=
  ⟨bulkF_none, bulkF_fail_after_grants, roleReplaceF_fail_after_delete⟩

theorem c8_amended_autocommit_witness :
    bulkF dbW 7 ["a"] ["b"] none =
      updateUserPermission dbW 7 ⟨some ["a"], some ["b"], none, none, none⟩ ∧
    bulkF dbW 7 ["a"] ["b"] (some 2) =
      (bulkWriteStep dbW 7 ["a"] "grant", Resp.serverError) ∧
    roleReplaceF dbW "Instructor" (some ["a"]) (some 1) =
      ({ dbW with role_permissions :=
          (dbW.role_permissions.filter (fun rp => !(rp.role == "Instructor"))) },
       Resp.serverError) :=
  ⟨c8_amended_autocommit.1 dbW 7 ["a"] ["b"],
   c8_amended_autocommit.2.1 dbW 7 ["a"] ["b"] (by decide) (by decide) (by decide),
   c8_amended_autocommit.2.2 dbW "Instructor" ["a"] (by decide)⟩

end SuperAdmin
